import Mathlib

/-
  Shallow embedding of BCorbin825/Memory_Manager (src/MemoryManager/MemoryManager.cpp).

  The manager keeps, per instance:
    vector<char> memory;                       -- backing store, modelled by its length memBytes
    vector<pair<unsigned,unsigned>> holes;     -- free extents (start, length) in words
    vector<pair<unsigned,unsigned>> partitions;-- live allocations (start, length) in words
    vector<int> bitmap;                        -- one int (0/1) per word, padded to a multiple of 8
    unsigned wordSize; size_t memSize;         -- word size in bytes, pool size in words

  Machine integers are modelled as Nat; the one place the C++ can wrap
  (the unsigned subtraction `holes[index].second - words` in allocate) is
  modelled with an explicit mod-2^32 subtraction.  The allocator used by
  allocate is the repository's bestFit (the default strategy exercised by
  the spec's scenarios).  File I/O in dumpMemoryMap is modelled on the
  successful-open path: the pair returned is (return code, text written).
  wordSize is assumed positive wherever a state is built (the C++ free
  loop does not terminate for wordSize = 0).
-/

namespace MemMgr

structure MM where
  wordSize : Nat
  memBytes : Nat
  memSize : Nat
  holes : List (Nat × Nat)
  partitions : List (Nat × Nat)
  bitmap : List Nat
  deriving DecidableEq, Repr

/-- Constructor `MemoryManager(wordSize, allocator)`: only wordSize is stored; the
containers start empty (memSize is indeterminate in C++ but unread before
initialize on every path that matters; we take it to be 0). -/
def mkMM (wordSize : Nat) : MM :=
  { wordSize := wordSize, memBytes := 0, memSize := 0,
    holes := [], partitions := [], bitmap := [] }

/-- `MemoryManager::shutdown`: clears memory, holes, partitions, bitmap.
Note it does not reset the memSize member. -/
def shutdown (m : MM) : MM :=
  { m with memBytes := 0, holes := [], partitions := [], bitmap := [] }

/-- `MemoryManager::initialize(sizeInWords)` (named initMem here, the source
name being a Lean keyword): shutdown, clamp to 65535, resize memory to
memSize*wordSize bytes, push the single hole (0, memSize), resize the bitmap
to memSize rounded up to a multiple of 8 (all zeros). -/
def initMem (m : MM) (sizeInWords : Nat) : MM :=
  let m0 := shutdown m
  let ms := if sizeInWords > 65535 then 65535 else sizeInWords
  let bmSize := if ms % 8 = 0 then ms else ms + (8 - ms % 8)
  { m0 with memSize := ms, memBytes := ms * m0.wordSize,
            holes := [(0, ms)], bitmap := List.replicate bmSize 0 }

/-- Lexicographic order on pairs, as std::sort uses on pair<unsigned,unsigned>. -/
def pairLe (a b : Nat × Nat) : Bool :=
  a.1 < b.1 || (a.1 == b.1 && a.2 ≤ b.2)

def insertPair (x : Nat × Nat) : List (Nat × Nat) → List (Nat × Nat)
  | [] => [x]
  | y :: ys => if pairLe x y then x :: y :: ys else y :: insertPair x ys

/-- Model of `sort(v.begin(), v.end())` on a vector of pairs: lexicographic
order on pairs is total, so the sorted rearrangement of a given multiset is
unique and any correct sort computes it; we use insertion sort. -/
def sortPairs : List (Nat × Nat) → List (Nat × Nat)
  | [] => []
  | x :: xs => insertPair x (sortPairs xs)

/-- Loop body of `bestFit` (MemoryManager.cpp lines 235-242): running best is
(start, length) initialised to (-1, 65536); a hole replaces it when its
length is strictly below the running length and at least sizeInWords. -/
def bestFitGo (sizeInWords : Nat) : List (Nat × Nat) → Int × Nat → Int × Nat
  | [], best => best
  | p :: rest, best =>
      if p.2 < best.2 ∧ sizeInWords ≤ p.2 then
        bestFitGo sizeInWords rest ((p.1 : Int), p.2)
      else
        bestFitGo sizeInWords rest best

/-- `bestFit(sizeInWords, list)`: list is the decoded sequence of
(offset, length) uint16 pairs from getList; returns the chosen start offset
or -1 when no hole fits. -/
def bestFit (sizeInWords : Nat) (list : List (Nat × Nat)) : Int :=
  (bestFitGo sizeInWords list ((-1 : Int), 65536)).1

/-- The uint16 truncation applied when getList packs holes into a uint16 array. -/
def encodeUint16 (hs : List (Nat × Nat)) : List (Nat × Nat) :=
  hs.map (fun p => (p.1 % 65536, p.2 % 65536))

/-- `MemoryManager::getList`: null when memory.size() == 0, else the count
followed by the (offset, length) pairs, each value truncated to uint16. -/
def getList (m : MM) : Option (List Nat) :=
  if m.memBytes = 0 then none
  else some ((m.holes.length % 65536) ::
    m.holes.foldr (fun p acc => p.1 % 65536 :: p.2 % 65536 :: acc) [])

/-- Unsigned 32-bit subtraction, as in `holes[index].second - words`. -/
def usub32 (a b : Nat) : Nat :=
  (a + (4294967296 - b % 4294967296)) % 4294967296

/-- Overwrite bm entries at indices [start, start+len) with v, the model of
`fill(bitmap.begin()+start, bitmap.begin()+start+len, v)` (in-bounds in every
run we evaluate; the C++ is undefined out of bounds). -/
def fillRangeAux (start len v : Nat) : Nat → List Nat → List Nat
  | _, [] => []
  | i, b :: bs =>
      (if start ≤ i ∧ i < start + len then v else b) :: fillRangeAux start len v (i + 1) bs

def fillRange (bm : List Nat) (start len v : Nat) : List Nat :=
  fillRangeAux start len v 0 bm

/-- `MemoryManager::allocate(sizeInBytes)` with the bestFit strategy
installed.  Returns the selected word offset (the returned address is
memoryStart + offset*wordSize) together with the new state.
Faithful details:
  - the guard is `sizeInBytes > memSize*wordSize || sizeInBytes < 0 ||
    memory.size() == 0`; the middle comparison is vacuous on size_t and is
    dropped;
  - `words = ceil(sizeInBytes/wordSize)` divides integers first, so it is
    the floor of the quotient;
  - the hole index defaults to 0 when no hole start equals the strategy's
    offset;
  - the carve sets the hole to (holeSelected + words, length - words) with
    unsigned subtraction;
  - the partition is pushed back and the vector sorted. -/
def allocate (m : MM) (sizeInBytes : Nat) : Option Nat × MM :=
  if sizeInBytes > m.memSize * m.wordSize ∨ m.memBytes = 0 then (none, m)
  else
    let words := sizeInBytes / m.wordSize
    let holeSelected := bestFit words (encodeUint16 m.holes)
    if holeSelected = -1 then (none, m)
    else
      let off := holeSelected.toNat
      let index := match m.holes.findIdx? (fun p => p.1 == off) with
        | some i => i
        | none => 0
      let h := m.holes.getD index (0, 0)
      let holes1 :=
        if h.2 = words then m.holes.eraseIdx index
        else m.holes.set index (off + words, usub32 h.2 words)
      (some off,
        { m with holes := holes1,
                 partitions := sortPairs (m.partitions ++ [(off, words)]),
                 bitmap := fillRange m.bitmap off words 1 })

/-- Coalescing loop of `MemoryManager::free` (lines 106-119).  Walks the
holes vector with index i carrying (combine, erase0, erase1); a hole ending
at wordOffset resets combine to (hole.start, hole.length + length) and
records erase0 := i; a hole starting at combine.start + combine.length
extends combine, records erase1 := i, and breaks. -/
def coalesceGo (wordOffset length : Nat) :
    List (Nat × Nat) → Nat → (Nat × Nat) → Option Nat → Option Nat →
    (Nat × Nat) × Option Nat × Option Nat
  | [], _, combine, e0, e1 => (combine, e0, e1)
  | h :: rest, i, combine, e0, e1 =>
      let c2 := if h.1 + h.2 = wordOffset then (h.1, h.2 + length) else combine
      let f0 := if h.1 + h.2 = wordOffset then some i else e0
      if h.1 = c2.1 + c2.2 then ((c2.1, c2.2 + h.2), f0, some i)
      else coalesceGo wordOffset length rest (i + 1) c2 f0 e1

/-- `MemoryManager::free` on a word offset: remove the first partition whose
start equals the offset (length stays 0 when none matches), run the
coalescing loop, erase the recorded indices in order (the second erasure is
applied to the already-shortened vector, exactly as the C++ does), push the
combined hole, sort, and clear the bitmap over the freed extent. -/
def freeOff (m : MM) (wordOffset : Nat) : MM :=
  let found := m.partitions.findIdx? (fun p => p.1 == wordOffset)
  let length := match found with
    | some i => (m.partitions.getD i (0, 0)).2
    | none => 0
  let parts1 := match found with
    | some i => m.partitions.eraseIdx i
    | none => m.partitions
  let r := coalesceGo wordOffset length m.holes 0 (wordOffset, length) none none
  let holes1 := match r.2.1 with
    | some i => m.holes.eraseIdx i
    | none => m.holes
  let holes2 := match r.2.2 with
    | some i => holes1.eraseIdx i
    | none => holes1
  { m with partitions := parts1,
           holes := sortPairs (holes2 ++ [r.1]),
           bitmap := fillRange m.bitmap wordOffset length 0 }

/-- The address-to-offset scan at the top of `MemoryManager::free`: byteIdx
is the byte distance of the freed address from memoryStart; the loop leaves
wordOffset at i/wordSize for the unique word-aligned i equal to byteIdx, and
at 0 when the address matches no word boundary of the block. -/
def scanOffset (m : MM) (byteIdx : Nat) : Nat :=
  if byteIdx % m.wordSize = 0 ∧ byteIdx < m.memBytes then byteIdx / m.wordSize else 0

/-- `MemoryManager::free(address)` for an address byteIdx bytes past memoryStart. -/
def free (m : MM) (byteIdx : Nat) : MM :=
  freeOff m (scanOffset m byteIdx)

/-- Pack eight 0/1 ints into one byte, low index at the least significant
bit, as the getBitmap loop does (`byte |= bitmap[i+j] << j`). -/
def packBytes : List Nat → List Nat
  | b0 :: b1 :: b2 :: b3 :: b4 :: b5 :: b6 :: b7 :: rest =>
      (b0 + 2 * b1 + 4 * b2 + 8 * b3 + 16 * b4 + 32 * b5 + 64 * b6 + 128 * b7)
        :: packBytes rest
  | _ => []

/-- `MemoryManager::getBitmap`: null when memory.size() == 0, else a two-byte
little-endian byte count followed by the packed bitmap bytes. -/
def getBitmap (m : MM) : Option (List Nat) :=
  if m.memBytes = 0 then none
  else
    let size := m.bitmap.length / 8
    some ((size % 256) :: (size / 256 % 256) :: packBytes m.bitmap)

/-- One hole rendered as the dump writes it. -/
def holeStr (p : Nat × Nat) : String :=
  "[" ++ toString p.1 ++ ", " ++ toString p.2 ++ "]"

/-- The dump loop: every hole but the last is followed by " - ". -/
def renderHoles : List (Nat × Nat) → String
  | [] => ""
  | [p] => holeStr p
  | p :: q :: rest => holeStr p ++ " - " ++ renderHoles (q :: rest)

/-- `MemoryManager::dumpMemoryMap` on the successful-open path, as
(return code, text written): -1 and nothing when uninitialized, the literal
"[0, 0]" when the hole vector is empty, else the rendered hole list. -/
def dumpMemoryMap (m : MM) : Int × String :=
  if m.memBytes = 0 then (-1, "")
  else if m.holes.isEmpty then (0, "[0, 0]")
  else (0, renderHoles m.holes)

/-- Does some extent of l contain word w. -/
def covers (l : List (Nat × Nat)) (w : Nat) : Bool :=
  l.any (fun p => p.1 ≤ w && w < p.1 + p.2)

/-- Two distinct holes a, b with a.start + a.length = b.start. -/
def hasAdjacentPair (hs : List (Nat × Nat)) : Bool :=
  hs.any (fun a => hs.any (fun b => a != b && a.1 + a.2 == b.1))

/-!  Concrete execution traces used below.  All use word size 2 bytes and the
bestFit strategy, mirroring the spec's scenarios.  Offsets passed to free are
byte distances from memoryStart, exactly the addresses allocate hands out
(word offset times word size). -/

/-- A manager constructed with word size 2. -/
def mgr2 : MM := mkMM 2

/-- A fresh 10-word pool: holes [(0,10)], no partitions. -/
def s10 : MM := initMem mgr2 10

/-- Trace that makes two adjacent holes reachable.  tAdj1: free at byte 10
(word 5, matching no partition) on the fresh pool; tAdj2: allocate 10 bytes
(5 words at offset 0); tAdj3: free at byte 10 again (word 5 still matches no
partition start); tAdj4: free at byte 0, releasing the partition (0,5). -/
def tAdj1 : MM := free s10 10

def tAdj2 : MM := (allocate tAdj1 10).2

def tAdj3 : MM := free tAdj2 10

def tAdj4 : MM := free tAdj3 0

/-- Round-trip continuation: allocate 10 bytes in tAdj4 (succeeds at word
offset 0) and free the returned address at once. -/
def tRt : Option Nat × MM := allocate tAdj4 10

def tRtBack : MM := free tRt.2 0

/-- Trace driving the both-side coalesce: a fresh 20-word pool, four
allocations covering words [0,15) leaving hole (15,5), then frees of the
partitions at words 0 and 6, and finally the free of (3,3) whose candidate
hole merges with (0,3) on the left and (6,4) on the right. -/
def u0 : MM := initMem mgr2 20

def u1 : MM := (allocate u0 6).2

def u2 : MM := (allocate u1 6).2

def u3 : MM := (allocate u2 8).2

def u4 : MM := (allocate u3 10).2

def u5 : MM := free u4 0

def u6 : MM := free u5 12

def u7 : MM := free u6 6

/-- Continuation of the u-trace: re-allocate 8 bytes (4 words, placed at the
still-listed hole (6,4)), allocate 20 bytes (10 words at offset 0 from the
overlapping hole (0,10)), then free the 4-word partition at word 6. -/
def u8 : MM := (allocate u7 8).2

def u9 : MM := (allocate u8 20).2

def u10 : MM := free u9 12

/-- Modelled from the spec: the dump text format "[start, length] - [start,
length] - ..." is a separator-prefixed concatenation; sepcat s xs prefixes
every entry of xs with s, so that the full format is head ++ sepcat of the
tail.  Used only to relate renderHoles to String.intercalate. -/
def sepcat (s : String) : List String → String
  | [] => ""
  | x :: xs => s ++ x ++ sepcat s xs

/-! Theorems. -/

/-- C1.  The claim says allocate converts a request to
ceil(sizeInBytes / wordSize) words.  The code computes
`ceil(sizeInBytes/wordSize)` with integer division inside the ceil, i.e. the
floor of the quotient: on a fresh 10-word pool with word size 2, allocating
3 bytes records the partition (0,1) and sets one bitmap bit — a single word
of 2 bytes, not the ceil(3/2) = 2 words the claim requires, so the
allocation does not cover sizeInBytes. -/
theorem c1_words_floor_not_ceil :
    (allocate s10 3).1 = some 0 ∧
    (allocate s10 3).2.partitions = [(0, 1)] ∧
    (allocate s10 3).2.holes = [(1, 9)] ∧
    (3 + 2 - 1) / 2 = 2 := by decide

/-- C2.  The claim says free on an address whose word offset matches no live
partition start leaves the Hole Set, Partition Set and Bitmap exactly
unchanged.  On the fresh 10-word pool (no partitions at all), freeing the
address at byte 10 (word offset 5) falls through the removal loop with
length 0 and pushes the degenerate hole (5,0): the Hole Set changes from
[(0,10)] to [(0,10),(5,0)].  Partition Set and Bitmap are unchanged, the
Hole Set is not. -/
theorem c2_unmatched_free_mutates :
    s10.partitions = [] ∧
    s10.holes = [(0, 10)] ∧
    tAdj1.holes = [(0, 10), (5, 0)] ∧
    tAdj1.holes ≠ s10.holes := by decide

/-- C3.  The claim says that after every free on an initialized pool no two
holes satisfy start + length = start of another.  In the reachable state
tAdj3 (holes [(5,0),(5,5)], partition (0,5)), freeing the valid partition at
word 0 makes the coalescing loop merge the degenerate hole (5,0) first and
break, skipping the real neighbour (5,5): the resulting Hole Set
[(0,5),(5,5)] contains the adjacent pair 0 + 5 = 5. -/
theorem c3_adjacent_holes_after_free :
    tAdj4.holes = [(0, 5), (5, 5)] ∧
    hasAdjacentPair tAdj4.holes = true := by decide

/-- C4.  The claim says Hole Set and Partition Set always exactly tile
[0, wordCount).  In the u-trace, the free of partition (3,3) merges holes on
both sides; the code then erases index erase0 and erases index erase1 in the
shortened vector, deleting the innocent hole (15,5) instead of the absorbed
(6,4).  The reachable state u7 has holes [(0,10),(6,4)] and partitions
[(10,5)]: word 17 lies in no hole and no partition (the extent [15,20) has
been lost), and words 6..9 lie in both listed holes. -/
theorem c4_coverage_violated :
    u7.holes = [(0, 10), (6, 4)] ∧
    u7.partitions = [(10, 5)] ∧
    u7.memSize = 20 ∧
    covers u7.holes 17 = false ∧
    covers u7.partitions 17 = false ∧
    covers [(0, 10)] 7 = true ∧
    covers [(6, 4)] 7 = true := by decide

/-- C5.  The claim says bit i of the Bitmap is 1 iff word i lies in some
partition, in every reachable state.  Continuing the u-trace, re-allocating
the doubly-listed region produces overlapping partitions (0,10) and (6,4);
freeing (6,4) clears bits 6..9 although words 6..9 still lie in the live
partition (0,10): in u10, bit 6 is 0 while word 6 is inside a partition. -/
theorem c5_bitmap_infidelity :
    u9.partitions = [(0, 10), (6, 4), (10, 5)] ∧
    u10.partitions = [(0, 10), (10, 5)] ∧
    u10.bitmap.getD 6 0 = 0 ∧
    covers u10.partitions 6 = true := by decide

/-- C6.  The claim says allocate(n) immediately followed by free of the
returned address restores the Hole Set exactly.  In the reachable state
tAdj4 with holes [(0,5),(5,5)], allocate(10) succeeds at word offset 0
(consuming hole (0,5) exactly); the immediate free coalesces the freed
extent with (5,5), leaving holes [(0,10)] — not the pre-allocation shape. -/
theorem c6_roundtrip_not_restored :
    tRt.1 = some 0 ∧
    tAdj4.holes = [(0, 5), (5, 5)] ∧
    tRtBack.holes = [(0, 10)] ∧
    tRtBack.holes ≠ tAdj4.holes := by decide

/-- C8 counterexample.  The claim says allocate fails with the null sentinel
whenever sizeInBytes is non-positive; but `sizeInBytes < 0` is vacuous on
the unsigned size type and zero is not rejected: on the fresh 10-word pool,
allocate(0) returns the non-null address of word 0 and records the
zero-length partition (0,0). -/
theorem c8_zero_size_not_rejected :
    (allocate s10 0).1 = some 0 ∧
    (allocate s10 0).2.partitions = [(0, 0)] := by decide

/-- Helper: String.intercalate.go accumulates the separator-prefixed tail. -/
theorem inter_go (s : String) :
    ∀ (xs : List String) (acc : String),
      String.intercalate.go acc s xs = acc ++ sepcat s xs
  | [], acc => by simp [String.intercalate.go, sepcat]
  | x :: xs, acc => by
      rw [String.intercalate.go, inter_go s xs, sepcat]
      simp [String.append_assoc]

/-- Helper: the dump loop writes exactly the " - "-intercalation of the
rendered holes. -/
theorem renderHoles_intercalate :
    ∀ (l : List (Nat × Nat)), l ≠ [] →
      renderHoles l = String.intercalate " - " (l.map holeStr)
  | [], h => absurd rfl h
  | [p], _ => by
      simp [renderHoles, String.intercalate, inter_go, sepcat]
  | p :: q :: rest, _ => by
      rw [renderHoles]
      rw [renderHoles_intercalate (q :: rest) (by simp)]
      simp only [List.map, String.intercalate, inter_go, sepcat]
      simp [String.append_assoc]

/-- Helper for C7: running bestFitGo from (s0, L0) either keeps the
accumulator, in which case every qualifying hole has length at least L0, or
returns a hole of the list of minimal qualifying length below L0 whose start
is least among equal-length qualifiers (on a start-ascending list). -/
theorem bestFitGo_characterization (w : Nat) (l : List (Nat × Nat)) :
    ∀ (s0 : Int) (L0 : Nat),
      l.Pairwise (fun a b => a.1 ≤ b.1) →
      (bestFitGo w l (s0, L0) = (s0, L0) ∧ ∀ p ∈ l, w ≤ p.2 → L0 ≤ p.2) ∨
      (∃ (s len : Nat), bestFitGo w l (s0, L0) = ((s : Int), len) ∧ (s, len) ∈ l ∧
        w ≤ len ∧ len < L0 ∧
        (∀ p ∈ l, w ≤ p.2 → len ≤ p.2) ∧
        (∀ p ∈ l, w ≤ p.2 → p.2 = len → s ≤ p.1)) := by
  induction l with
  | nil => intro s0 L0 _; exact Or.inl ⟨rfl, by simp⟩
  | cons p rest ih =>
      intro s0 L0 hsort
      rw [List.pairwise_cons] at hsort
      obtain ⟨hp, hrest⟩ := hsort
      simp only [bestFitGo]
      by_cases hc : p.2 < L0 ∧ w ≤ p.2
      · rw [if_pos hc]
        rcases ih p.1 p.2 hrest with ⟨heq, hmin⟩ | ⟨s, len, heq, hmem, hwle, hlt, hmin, htie⟩
        · refine Or.inr ⟨p.1, p.2, ?_, List.mem_cons_self _ _, hc.2, hc.1, ?_, ?_⟩
          · rw [heq]
          · intro q hq hwq
            rcases List.mem_cons.mp hq with h | hq2
            · rw [h]
            · exact hmin q hq2 hwq
          · intro q hq hwq hlen
            rcases List.mem_cons.mp hq with h | hq2
            · rw [h]
            · exact hp q hq2
        · refine Or.inr ⟨s, len, heq, List.mem_cons_of_mem _ hmem, hwle, lt_trans hlt hc.1, ?_, ?_⟩
          · intro q hq hwq
            rcases List.mem_cons.mp hq with h | hq2
            · rw [h]; exact le_of_lt hlt
            · exact hmin q hq2 hwq
          · intro q hq hwq hlen
            rcases List.mem_cons.mp hq with h | hq2
            · subst h; omega
            · exact htie q hq2 hwq hlen
      · rw [if_neg hc]
        rcases ih s0 L0 hrest with ⟨heq, hmin⟩ | ⟨s, len, heq, hmem, hwle, hlt, hmin, htie⟩
        · refine Or.inl ⟨heq, ?_⟩
          intro q hq hwq
          rcases List.mem_cons.mp hq with h | hq2
          · subst h; omega
          · exact hmin q hq2 hwq
        · refine Or.inr ⟨s, len, heq, List.mem_cons_of_mem _ hmem, hwle, hlt, ?_, ?_⟩
          · intro q hq hwq
            rcases List.mem_cons.mp hq with h | hq2
            · subst h; omega
            · exact hmin q hq2 hwq
          · intro q hq hwq hlen
            rcases List.mem_cons.mp hq with h | hq2
            · subst h; omega
            · exact htie q hq2 hwq hlen

/-- C7.  On a hole list of uint16 values (every length at most 65535, as the
getList encoding guarantees) sorted ascending by start offset, bestFit
returns -1 exactly when no hole has length at least the requested word
count; otherwise it returns the start offset of a listed hole whose length
is minimal among qualifying holes and whose start offset is least among
qualifying holes of that minimal length.  In particular, over holes
(0,10),(20,2),(30,6), a request for 5 words selects offset 30 and a request
for 2 words selects offset 20. -/
theorem c7_bestFit_correct (l : List (Nat × Nat)) (w : Nat)
    (hb : ∀ p ∈ l, p.2 ≤ 65535)
    (hsort : l.Pairwise (fun a b => a.1 ≤ b.1)) :
    ((∀ p ∈ l, p.2 < w) → bestFit w l = -1) ∧
    (∀ p0 ∈ l, w ≤ p0.2 →
      ∃ (s len : Nat), bestFit w l = (s : Int) ∧ (s, len) ∈ l ∧ w ≤ len ∧
        (∀ p ∈ l, w ≤ p.2 → len ≤ p.2) ∧
        (∀ p ∈ l, w ≤ p.2 → p.2 = len → s ≤ p.1)) ∧
    bestFit 5 [(0, 10), (20, 2), (30, 6)] = 30 ∧
    bestFit 2 [(0, 10), (20, 2), (30, 6)] = 20 := by
  refine ⟨?_, ?_, by decide, by decide⟩
  · intro hnone
    rcases bestFitGo_characterization w l (-1) 65536 hsort with
      ⟨heq, _⟩ | ⟨s, len, heq, hmem, hwle, _, _, _⟩
    · unfold bestFit
      rw [heq]
    · exact absurd hwle (not_le.mpr (hnone _ hmem))
  · intro p0 hp0 hw0
    rcases bestFitGo_characterization w l (-1) 65536 hsort with
      ⟨_, hmin⟩ | ⟨s, len, heq, hmem, hwle, _, hmin, htie⟩
    · exact absurd (hmin p0 hp0 hw0) (by have := hb p0 hp0; omega)
    · refine ⟨s, len, ?_, hmem, hwle, hmin, htie⟩
      unfold bestFit
      rw [heq]

/-- Witness for C7: a concrete no-fit instance obtained from the theorem. -/
theorem c7_bestFit_correct_witness :
    bestFit 3 [(0, 2), (4, 1)] = -1 :=
  (c7_bestFit_correct [(0, 2), (4, 1)] 3 (by decide) (by decide)).1 (by decide)

/-- C8 as amended.  allocate fails with the null sentinel and no mutation of
any structure whenever the pool is uninitialized (memory.size() == 0) or
sizeInBytes exceeds memSize*wordSize; the non-positivity half of the claim
is refuted by c8_zero_size_not_rejected, since `sizeInBytes < 0` is vacuous
for the unsigned size type and zero-byte requests proceed. -/
theorem c8_allocate_failure_conditions (m : MM) (sizeInBytes : Nat)
    (h : m.memBytes = 0 ∨ sizeInBytes > m.memSize * m.wordSize) :
    allocate m sizeInBytes = (none, m) := by
  unfold allocate
  rcases h with h | h
  · rw [if_pos (Or.inr h)]
  · rw [if_pos (Or.inl h)]

/-- Witness for C8 as amended: allocate on an uninitialized manager. -/
theorem c8_allocate_failure_conditions_witness :
    allocate (mkMM 2) 5 = (none, mkMM 2) :=
  c8_allocate_failure_conditions (mkMM 2) 5 (Or.inl rfl)

/-- C9.  dumpMemoryMap returns -1 on an uninitialized pool; on an
initialized pool it returns 0 and writes the stored hole list (maintained
ascending by start) in the format "[start, length] - [start, length] - ...",
i.e. the " - "-intercalation of the bracketed pairs; a pool with an empty
Hole Set writes exactly the literal placeholder "[0, 0]".  The file-system
failure path of the POSIX open call is outside the embedding. -/
theorem c9_dump_format (m : MM) :
    (m.memBytes = 0 → dumpMemoryMap m = (-1, "")) ∧
    (m.memBytes ≠ 0 → m.holes = [] → dumpMemoryMap m = (0, "[0, 0]")) ∧
    (m.memBytes ≠ 0 → m.holes ≠ [] →
      dumpMemoryMap m = (0, String.intercalate " - " (m.holes.map holeStr))) := by
  refine ⟨?_, ?_, ?_⟩
  · intro h
    simp [dumpMemoryMap, h]
  · intro h he
    simp [dumpMemoryMap, h, he]
  · intro h hne
    rw [← renderHoles_intercalate m.holes hne]
    simp [dumpMemoryMap, h, hne]

/-- Witness for C9: the reachable state u6 (holes (0,3),(6,4),(15,5)) dumps
in the intercalated format, and the reachable fully-allocated state u9
dumps the literal placeholder. -/
theorem c9_dump_format_witness :
    dumpMemoryMap u6 = (0, String.intercalate " - " (u6.holes.map holeStr)) ∧
    dumpMemoryMap u9 = (0, "[0, 0]") :=
  ⟨(c9_dump_format u6).2.2 (by decide) (by decide),
   (c9_dump_format u9).2.1 (by decide) (by decide)⟩

/-- C10.  After initialize(0) the pool behaves as uninitialized at the whole
public interface: the backing store has zero bytes, allocate returns the
null sentinel for every request, getList and getBitmap return null,
dumpMemoryMap returns -1 — even though the hole (0,0) is seeded in the Hole
Set. -/
theorem c10_zero_pool_uninitialized (w s : Nat) :
    (allocate (initMem (mkMM w) 0) s).1 = none ∧
    getList (initMem (mkMM w) 0) = none ∧
    getBitmap (initMem (mkMM w) 0) = none ∧
    (dumpMemoryMap (initMem (mkMM w) 0)).1 = -1 ∧
    (initMem (mkMM w) 0).memBytes = 0 ∧
    (initMem (mkMM w) 0).holes = [(0, 0)] := by
  have h0 : initMem (mkMM w) 0 =
      { wordSize := w, memBytes := 0, memSize := 0,
        holes := [(0, 0)], partitions := [], bitmap := [] } := by
    simp [initMem, mkMM, shutdown]
  rw [h0]
  refine ⟨?_, rfl, rfl, rfl, rfl, rfl⟩
  unfold allocate
  rw [if_pos (Or.inr rfl)]

end MemMgr
